import Mathlib

set_option maxRecDepth 8000

/-
Shallow embedding of the Turing machine simulator (`turing_simulator.py`).

States are Python strings (Lean `String`), tape symbols are single characters
(Lean `Char`).  The Python `dict` that backs the tape is modelled as an
association list with Python's assignment semantics (overwrite in place if the
key is present, append otherwise).  Python sets (`states`, `accept_states`,
`reject_states`, the alphabets) are modelled as lists carrying an explicit
iteration order, because `step` observes that order via
`list(self.reject_states)[0]`; membership tests (`in`) become list membership.
Methods that mutate `self` become functions returning the updated value, and
methods that can raise (`step` raises `ValueError` on a missing tape and
`IndexError` on an empty `reject_states`) return `Except String`.
-/

/-- Movement direction of the head (`Direction` enum in the source). -/
inductive Direction where
  | LEFT
  | RIGHT
deriving DecidableEq

/-- Python `d.get(k, default)` on the association-list model of a `dict`
keyed by `int`, without the default (returns `Option`). -/
def dictGet (d : List (Int × Char)) (k : Int) : Option Char :=
  (d.find? (fun e => e.1 == k)).map (fun e => e.2)

/-- Python `dict` assignment `d[k] = v`: overwrite the entry in place when the
key is present, append a new entry otherwise. -/
def dictInsert (d : List (Int × Char)) (k : Int) (v : Char) : List (Int × Char) :=
  if d.any (fun e => e.1 == k) then
    d.map (fun e => if e.1 == k then (k, v) else e)
  else
    d ++ [(k, v)]

/-- Python `min(d.keys())` for a non-empty dict; the `[]` case is junk that
every caller guards against (the source only calls it under `if self.tape`). -/
def dictMinKey : List (Int × Char) → Int
  | [] => 0
  | e :: es => es.foldl (fun a x => min a x.1) e.1

/-- Python `max(d.keys())` for a non-empty dict; the `[]` case is junk that
every caller guards against. -/
def dictMaxKey : List (Int × Char) → Int
  | [] => 0
  | e :: es => es.foldl (fun a x => max a x.1) e.1

/-- The infinite tape (`Tape` class): a sparse dict of cells, the blank
symbol fixed at construction, and the (signed, unbounded) head position. -/
structure Tape where
  blank_symbol : Char
  tape : List (Int × Char)
  head_position : Int
deriving DecidableEq

/-- `Tape.__init__(input_string, blank_symbol)`: seed cell `i` with character
`i` of the input (`for i, symbol in enumerate(input_string): self.tape[i] = symbol`),
head at position 0. -/
def Tape.init (input_string : String) (blank_symbol : Char) : Tape :=
  { blank_symbol := blank_symbol
    tape := input_string.data.enum.foldl (fun d p => dictInsert d (p.1 : Int) p.2) []
    head_position := 0 }

/-- `Tape.read`: `self.tape.get(self.head_position, self.blank_symbol)`. -/
def Tape.read (t : Tape) : Char :=
  (dictGet t.tape t.head_position).getD t.blank_symbol

/-- `Tape.write`: `self.tape[self.head_position] = symbol`. -/
def Tape.write (t : Tape) (symbol : Char) : Tape :=
  { t with tape := dictInsert t.tape t.head_position symbol }

/-- `Tape.move`: head position decremented for LEFT, incremented for RIGHT. -/
def Tape.move (t : Tape) (direction : Direction) : Tape :=
  match direction with
  | Direction.LEFT => { t with head_position := t.head_position - 1 }
  | Direction.RIGHT => { t with head_position := t.head_position + 1 }

/-- `Tape.get_content(window)`: the visible stretch of tape from
`min(min(keys), head - window // 2)` to `max(max(keys), head + window // 2)`,
or just the blank symbol when the dict is empty.  Only used in configuration
snapshots; the engine's control logic never reads it. -/
def Tape.get_content (t : Tape) (window : Nat) : String :=
  if t.tape.isEmpty then String.singleton t.blank_symbol
  else
    let min_pos : Int := min (dictMinKey t.tape) (t.head_position - ((window / 2 : Nat) : Int))
    let max_pos : Int := max (dictMaxKey t.tape) (t.head_position + ((window / 2 : Nat) : Int))
    (List.range (max_pos + 1 - min_pos).toNat).foldl
      (fun content i => content.push ((dictGet t.tape (min_pos + (i : Int))).getD t.blank_symbol)) ""

/-- The transition dict `δ : Q × Γ → Q × Γ × {L, R}` of the `TransitionFunction`
class.  The engine only ever consults it through `get_transition`, i.e. through
`dict.get`, so it is modelled as the lookup function itself. -/
abbrev TransitionFunction := String → Char → Option (String × Char × Direction)

/-- `TransitionFunction.get_transition`: `self.transitions.get((current_state, read_symbol))`. -/
def TransitionFunction.get_transition (f : TransitionFunction) (current_state : String)
    (read_symbol : Char) : Option (String × Char × Direction) :=
  f current_state read_symbol

/-- The `TuringMachine` class: the immutable description fields followed by the
mutable execution fields, in source order. -/
structure TuringMachine where
  states : List String
  input_alphabet : List Char
  tape_alphabet : List Char
  transition_function : TransitionFunction
  initial_state : String
  accept_states : List String
  reject_states : List String
  blank_symbol : Char
  current_state : String
  tape : Option Tape
  step_count : Nat
  history : List String

/-- `TuringMachine.__init__`: stores the description verbatim (no validation of
any kind) and initializes the execution state with no tape loaded. -/
def TuringMachine.init (states : List String) (input_alphabet : List Char)
    (tape_alphabet : List Char) (transition_function : TransitionFunction)
    (initial_state : String) (accept_states : List String)
    (reject_states : List String) (blank_symbol : Char) : TuringMachine :=
  { states := states
    input_alphabet := input_alphabet
    tape_alphabet := tape_alphabet
    transition_function := transition_function
    initial_state := initial_state
    accept_states := accept_states
    reject_states := reject_states
    blank_symbol := blank_symbol
    current_state := initial_state
    tape := none
    step_count := 0
    history := [] }

/-- The f-string recorded by `_record_configuration`:
`f"Paso {step_count}: Estado={current_state}, Posición={head_position}, Cinta={get_content()}"`. -/
def configStr (n : Nat) (state : String) (t : Tape) : String :=
  let pos := t.head_position
  let content := Tape.get_content t 20
  s!"Paso {n}: Estado={state}, Posición={pos}, Cinta={content}"

/-- `TuringMachine._record_configuration`: appends the configuration string to
the history when a tape is loaded (`if self.tape:`), does nothing otherwise. -/
def TuringMachine.record_configuration (m : TuringMachine) : TuringMachine :=
  match m.tape with
  | some t => { m with history := m.history ++ [configStr m.step_count m.current_state t] }
  | none => m

/-- `TuringMachine.load_input`: fresh tape seeded from the input, current state
back to the initial state, step count 0, history cleared, then one snapshot of
the initial configuration is recorded. -/
def TuringMachine.load_input (m : TuringMachine) (input_string : String) : TuringMachine :=
  TuringMachine.record_configuration
    { m with
      tape := some (Tape.init input_string m.blank_symbol)
      current_state := m.initial_state
      step_count := 0
      history := [] }

/-- `TuringMachine.step`: one step of the machine.  `Except.error` models the
two exceptions the method can raise: `ValueError("No hay entrada cargada")`
when no tape is loaded, and the `IndexError` from `list(self.reject_states)[0]`
when an undefined transition is met with an empty `reject_states`.  On
`Except.ok (m2, can_continue)`, `m2` is the mutated machine and `can_continue`
is the boolean the method returns. -/
def TuringMachine.step (m : TuringMachine) : Except String (TuringMachine × Bool) :=
  match m.tape with
  | none => Except.error "No hay entrada cargada"
  | some t =>
    if m.current_state ∈ m.accept_states then Except.ok (m, false)
    else if m.current_state ∈ m.reject_states then Except.ok (m, false)
    else
      let current_symbol := t.read
      match TransitionFunction.get_transition m.transition_function m.current_state current_symbol with
      | none =>
        match m.reject_states with
        | [] => Except.error "list index out of range"
        | r :: _ => Except.ok ({ m with current_state := r }, false)
      | some (next_state, write_symbol, direction) =>
        let t2 := (t.write write_symbol).move direction
        let m2 := { m with
          tape := some t2
          current_state := next_state
          step_count := m.step_count + 1 }
        Except.ok (TuringMachine.record_configuration m2, true)

/-- The `while self.step_count < max_steps` loop of `TuringMachine.run`.  The
`fuel` argument only bounds the recursion; `run` passes `fuel = max_steps`,
which is enough because every iteration that continues increments `step_count`
by exactly one (`TuringMachine.step_count_of_continue` below), so the `fuel = 0`
fallback is reached only when `step_count` has already reached `max_steps`,
where it returns the same machine the loop condition would. -/
def TuringMachine.runLoop (max_steps : Nat) : Nat → TuringMachine → Except String TuringMachine
  | 0, m => Except.ok m
  | fuel + 1, m =>
    if m.step_count < max_steps then
      match TuringMachine.step m with
      | Except.error e => Except.error e
      | Except.ok (m2, can_continue) =>
        if can_continue then TuringMachine.runLoop max_steps fuel m2 else Except.ok m2
    else Except.ok m

/-- The number of `step` calls the run loop performs, by the same recursion as
`TuringMachine.runLoop`. -/
def TuringMachine.runLoopCalls (max_steps : Nat) : Nat → TuringMachine → Nat
  | 0, _ => 0
  | fuel + 1, m =>
    if m.step_count < max_steps then
      match TuringMachine.step m with
      | Except.error _ => 1
      | Except.ok (m2, can_continue) =>
        if can_continue then 1 + TuringMachine.runLoopCalls max_steps fuel m2 else 1
    else 0

/-- `TuringMachine.run`: load the input, loop `step` until it returns `False`
or the step budget is reached, then decide the outcome from the final state in
the source's precedence order (accept, then reject, then step limit).  The
`step_by_step` printing of the source is pure console output with no effect on
the computed result and is not modelled. -/
def TuringMachine.run (m : TuringMachine) (input_string : String) (max_steps : Nat) :
    Except String (TuringMachine × Bool × String) :=
  let m0 := TuringMachine.load_input m input_string
  match TuringMachine.runLoop max_steps max_steps m0 with
  | Except.error e => Except.error e
  | Except.ok mf =>
    if mf.current_state ∈ mf.accept_states then Except.ok (mf, true, "ACEPTADA")
    else if mf.current_state ∈ mf.reject_states then Except.ok (mf, false, "RECHAZADA")
    else Except.ok (mf, false, "BUCLE DETECTADO (límite de pasos alcanzado)")

/-- `TuringMachine.get_history`: returns the history list. -/
def TuringMachine.get_history (m : TuringMachine) : List String :=
  m.history

/-- Equality of the eight immutable description fields of two machines. -/
def sameDescription (a b : TuringMachine) : Prop :=
  a.states = b.states ∧ a.input_alphabet = b.input_alphabet ∧
  a.tape_alphabet = b.tape_alphabet ∧ a.transition_function = b.transition_function ∧
  a.initial_state = b.initial_state ∧ a.accept_states = b.accept_states ∧
  a.reject_states = b.reject_states ∧ a.blank_symbol = b.blank_symbol



/-- Transition function of the spec's single-symbol acceptor scenario:
`q0,'0' -> q_accept,'0',R` and nothing else. -/
def tfSingle : TransitionFunction := fun s c =>
  if s = "q0" ∧ c = '0' then some ("q_accept", '0', Direction.RIGHT) else none

/-- The spec's single-symbol acceptor: accepts exactly the input `"0"`,
implicitly rejects on any other symbol. -/
def tmSingle : TuringMachine :=
  TuringMachine.init ["q0", "q_accept", "q_reject"] ['0', '1'] ['0', '1', '_']
    tfSingle "q0" ["q_accept"] ["q_reject"] '_'

/-- A second machine object with the same description as `tmSingle` except for
the (irrelevant) iteration order of `states`. -/
def tmSingleB : TuringMachine :=
  TuringMachine.init ["q_accept", "q0", "q_reject"] ['0', '1'] ['0', '1', '_']
    tfSingle "q0" ["q_accept"] ["q_reject"] '_'

/-- `tmSingle` after loading the input `"1"`, for which no transition is
defined: the next `step` performs an implicit reject. -/
def tmSingleLoaded1 : TuringMachine := TuringMachine.load_input tmSingle "1"

/-- `tmSingleB` after loading the input `"1"`. -/
def tmSingleB1 : TuringMachine := TuringMachine.load_input tmSingleB "1"

/-- A machine whose initial state is already accepting, with a transition
defined for the pair (`"qa"`, blank) — dead code that a halting-state `step`
must never consult. -/
def tmHalting : TuringMachine :=
  TuringMachine.init ["qa"] [] ['_']
    (fun s c => if s = "qa" ∧ c = '_' then some ("qa", '_', Direction.RIGHT) else none)
    "qa" ["qa"] [] '_'

/-- `tmHalting` after loading the empty input. -/
def tmHaltingLoaded : TuringMachine := TuringMachine.load_input tmHalting ""

/-- A machine with no transitions and an empty `reject_states`: its first
step meets an undefined transition and `list(self.reject_states)[0]` raises. -/
def tmNoReject : TuringMachine :=
  TuringMachine.init ["q0"] [] ['_'] (fun _ _ => none) "q0" [] [] '_'

/-- `tmNoReject` after loading the empty input. -/
def tmNoRejectLoaded : TuringMachine := TuringMachine.load_input tmNoReject ""

/-- A malformed description: `initial_state` `"q0"` and the reject state
`"qr"` are not members of `states` (which is empty). -/
def tmBadStates : TuringMachine :=
  TuringMachine.init [] [] [] (fun _ _ => none) "q0" [] ["qr"] '_'

/-- No transitions, two reject states in iteration order `["r1", "r2"]`. -/
def tmOrder1 : TuringMachine :=
  TuringMachine.init ["q0", "r1", "r2"] [] ['_'] (fun _ _ => none) "q0" [] ["r1", "r2"] '_'

/-- The same description as `tmOrder1` except that the two reject states come
in the opposite iteration order `["r2", "r1"]` — the same set. -/
def tmOrder2 : TuringMachine :=
  TuringMachine.init ["q0", "r1", "r2"] [] ['_'] (fun _ _ => none) "q0" [] ["r2", "r1"] '_'

/-- The machine a successful `step` returns (with the unchanged machine as a
junk fallback for the error case); used to name concrete step results. -/
def stepMachine (m : TuringMachine) : TuringMachine :=
  match TuringMachine.step m with
  | Except.ok p => p.1
  | Except.error _ => m

/-- The machine a successful `run` returns (junk fallback on error); used to
name concrete run results. -/
def runMachine (m : TuringMachine) (x : String) (ms : Nat) : TuringMachine :=
  match TuringMachine.run m x ms with
  | Except.ok p => p.1
  | Except.error _ => m

/-- The mutated machine object left behind by `run tmSingle "0" 5`. -/
def tmSingleAfterRun : TuringMachine := runMachine tmSingle "0" 5


lemma dictGet_map_overwrite (k : Int) (v : Char) :
    ∀ d : List (Int × Char),
      dictGet (d.map (fun e => if e.1 == k then (k, v) else e)) k
        = if d.any (fun e => e.1 == k) then some v else none
  | [] => by simp [dictGet]
  | e :: es => by
    by_cases h : e.1 = k
    · have hhead : (if e.1 == k then (k, v) else e) = (k, v) := by simp [h]
      simp only [List.map_cons, hhead, dictGet, List.any_cons]
      rw [List.find?_cons_of_pos _ (by simp)]
      simp [h]
    · have hhead : (if e.1 == k then (k, v) else e) = e := by simp [h]
      have ih := dictGet_map_overwrite k v es
      simp only [List.map_cons, hhead, dictGet, List.any_cons]
      rw [List.find?_cons_of_neg _ (by simp [h])]
      have hb : (e.1 == k) = false := by simp [h]
      simp only [hb, Bool.false_or]
      simpa [dictGet] using ih

lemma dictGet_append (k : Int) (d1 d2 : List (Int × Char)) :
    dictGet (d1 ++ d2) k
      = match dictGet d1 k with
        | some v => some v
        | none => dictGet d2 k := by
  unfold dictGet
  rw [List.find?_append]
  cases hf : List.find? (fun e => e.1 == k) d1 <;> simp [hf, Option.or]

lemma dictGet_dictInsert_self (d : List (Int × Char)) (k : Int) (v : Char) :
    dictGet (dictInsert d k v) k = some v := by
  unfold dictInsert
  rcases ha : d.any (fun e => e.1 == k) with _ | _
  · rw [if_neg (by simp [ha])]
    rw [dictGet_append]
    have h1 : List.find? (fun e => e.1 == k) d = none :=
      List.find?_eq_none.mpr (fun x hx => by simpa using (List.any_eq_false.mp ha) x hx)
    have hnone : dictGet d k = none := by unfold dictGet; rw [h1]; rfl
    rw [hnone]
    simp [dictGet]
  · rw [if_pos (by simp [ha])]
    rw [dictGet_map_overwrite, ha]
    simp


lemma seed_foldl_eq_append (l : List Char) :
    ∀ (n : Nat) (d : List (Int × Char)),
      (∀ e ∈ d, e.1 < (n : Int)) →
      (List.enumFrom n l).foldl (fun d p => dictInsert d (p.1 : Int) p.2) d
        = d ++ (List.enumFrom n l).map (fun p => ((p.1 : Int), p.2)) := by
  induction l with
  | nil => intro n d _; simp [List.enumFrom]
  | cons c cs ih =>
    intro n d hd
    have hnot : (d.any (fun e => e.1 == (n : Int))) = false := by
      rw [List.any_eq_false]
      intro x hx
      have hlt := hd x hx
      simp only [beq_iff_eq]
      omega
    have hins : dictInsert d (n : Int) c = d ++ [((n : Int), c)] := by
      unfold dictInsert
      rw [if_neg (by simp only [hnot]; exact Bool.false_ne_true)]
    rw [show List.enumFrom n (c :: cs) = (n, c) :: List.enumFrom (n + 1) cs from rfl]
    simp only [List.foldl_cons, List.map_cons]
    rw [hins, ih (n + 1) (d ++ [((n : Int), c)])]
    · simp
    · intro e he
      rcases List.mem_append.mp he with hme | hme
      · have := hd e hme
        push_cast
        omega
      · simp at hme
        rw [hme]
        push_cast
        omega

lemma dictGet_enumFrom_map (l : List Char) :
    ∀ (n : Nat) (k : Int),
      dictGet ((List.enumFrom n l).map (fun p => ((p.1 : Int), p.2))) k
        = if (n : Int) ≤ k then l.get? (k - (n : Int)).toNat else none := by
  induction l with
  | nil => intro n k; simp [List.enumFrom, dictGet]
  | cons c cs ih =>
    intro n k
    rw [show List.enumFrom n (c :: cs) = (n, c) :: List.enumFrom (n + 1) cs from rfl,
      List.map_cons]
    by_cases hk : (n : Int) = k
    · subst hk
      unfold dictGet
      rw [List.find?_cons_of_pos _ (by simp)]
      simp
    · unfold dictGet
      rw [List.find?_cons_of_neg _ (by simpa using hk)]
      have hrec := ih (n + 1) k
      unfold dictGet at hrec
      rw [hrec]
      rcases lt_trichotomy k (n : Int) with hlt | heq | hgt
      · rw [if_neg (by push_cast; omega), if_neg (by omega)]
      · exact absurd heq.symm hk
      · rw [if_pos (by push_cast; omega), if_pos (by omega)]
        have harith : (k - (n : Int)).toNat = (k - ((n + 1 : Nat) : Int)).toNat + 1 := by
          push_cast
          omega
        rw [harith, List.get?_cons_succ]

lemma tape_init_tape_eq (x : String) (b : Char) :
    (Tape.init x b).tape = (List.enumFrom 0 x.data).map (fun p => ((p.1 : Int), p.2)) := by
  unfold Tape.init
  rw [show x.data.enum = List.enumFrom 0 x.data from rfl]
  rw [seed_foldl_eq_append x.data 0 [] (by simp)]
  simp

lemma tape_init_read (x : String) (b : Char) (p : Int) :
    Tape.read { Tape.init x b with head_position := p }
      = if p < 0 then b else x.data.getD p.toNat b := by
  unfold Tape.read
  simp only [tape_init_tape_eq]
  rw [dictGet_enumFrom_map]
  by_cases hp : p < 0
  · rw [if_neg (by push_cast; omega), if_pos hp]
    rfl
  · rw [if_pos (by push_cast; omega), if_neg hp]
    rw [show p - ((0 : Nat) : Int) = p from by push_cast; omega]
    simp [List.getD_eq_getElem?_getD, Tape.init]

/-- C6: `Tape.read` never fails and has no side effect (it is a pure function
of the tape in this embedding, mirroring the source's single `dict.get`).  On a
tape freshly seeded from `input` with the head moved to an arbitrary position
`p`, it returns the seeded input character when `0 ≤ p < length input` and the
blank symbol for every other position — every negative position and every
position at or past the end of the input (`List.getD` returns the fallback `b`
out of range); and it returns the symbol just written at the head position. -/
theorem tape_read_never_fails (x : String) (b : Char) (p : Int) (t : Tape) (s : Char) :
    Tape.read { Tape.init x b with head_position := p }
        = (if p < 0 then b else x.data.getD p.toNat b)
    ∧ Tape.read (Tape.write t s) = s := by
  refine ⟨tape_init_read x b p, ?_⟩
  unfold Tape.read Tape.write
  simp only []
  rw [dictGet_dictInsert_self]
  rfl

/-- C9: `Tape.move` changes `head_position` by exactly `-1` for LEFT and `+1`
for RIGHT, touches neither the cells nor the blank symbol, and the two
compositions RIGHT-then-LEFT and LEFT-then-RIGHT restore the tape exactly. -/
theorem tape_move_unit_step_and_inverse (t : Tape) (d : Direction) :
    (Tape.move t Direction.LEFT).head_position = t.head_position - 1
    ∧ (Tape.move t Direction.RIGHT).head_position = t.head_position + 1
    ∧ (Tape.move t d).tape = t.tape
    ∧ (Tape.move t d).blank_symbol = t.blank_symbol
    ∧ Tape.move (Tape.move t Direction.RIGHT) Direction.LEFT = t
    ∧ Tape.move (Tape.move t Direction.LEFT) Direction.RIGHT = t := by
  refine ⟨rfl, rfl, ?_, ?_, ?_, ?_⟩
  · cases d <;> rfl
  · cases d <;> rfl
  · cases t with
    | mk b tp h =>
      simp only [Tape.move, Tape.mk.injEq, and_true, true_and, eq_self_iff_true]
      omega
  · cases t with
    | mk b tp h =>
      simp only [Tape.move, Tape.mk.injEq, and_true, true_and, eq_self_iff_true]
      omega

lemma record_configuration_fields (m : TuringMachine) :
    (TuringMachine.record_configuration m).states = m.states
    ∧ (TuringMachine.record_configuration m).input_alphabet = m.input_alphabet
    ∧ (TuringMachine.record_configuration m).tape_alphabet = m.tape_alphabet
    ∧ (TuringMachine.record_configuration m).transition_function = m.transition_function
    ∧ (TuringMachine.record_configuration m).initial_state = m.initial_state
    ∧ (TuringMachine.record_configuration m).accept_states = m.accept_states
    ∧ (TuringMachine.record_configuration m).reject_states = m.reject_states
    ∧ (TuringMachine.record_configuration m).blank_symbol = m.blank_symbol
    ∧ (TuringMachine.record_configuration m).current_state = m.current_state
    ∧ (TuringMachine.record_configuration m).tape = m.tape
    ∧ (TuringMachine.record_configuration m).step_count = m.step_count := by
  unfold TuringMachine.record_configuration
  cases htape : m.tape <;> simp [htape]

lemma record_configuration_history_some (m : TuringMachine) (t : Tape) (h : m.tape = some t) :
    (TuringMachine.record_configuration m).history
      = m.history ++ [configStr m.step_count m.current_state t] := by
  unfold TuringMachine.record_configuration
  rw [h]

lemma step_characterization (m m2 : TuringMachine) (c : Bool)
    (h : TuringMachine.step m = Except.ok (m2, c)) :
    ∃ t, m.tape = some t ∧
      ((c = false ∧
          (((m.current_state ∈ m.accept_states ∨ m.current_state ∈ m.reject_states) ∧ m2 = m)
            ∨ (m.current_state ∉ m.accept_states ∧ m.current_state ∉ m.reject_states
                ∧ TransitionFunction.get_transition m.transition_function m.current_state t.read
                    = none
                ∧ ∃ r rs, m.reject_states = r :: rs ∧ m2 = { m with current_state := r })))
        ∨ (c = true ∧ ∃ ns ws dir,
            TransitionFunction.get_transition m.transition_function m.current_state t.read
              = some (ns, ws, dir)
            ∧ m2 = TuringMachine.record_configuration
                { m with
                  tape := some ((t.write ws).move dir)
                  current_state := ns
                  step_count := m.step_count + 1 })) := by
  cases htape : m.tape with
  | none =>
    simp only [TuringMachine.step, htape] at h
    exact absurd h (by simp)
  | some t =>
    simp only [TuringMachine.step, htape] at h
    refine ⟨t, rfl, ?_⟩
    by_cases ha : m.current_state ∈ m.accept_states
    · rw [if_pos ha] at h
      simp only [Except.ok.injEq, Prod.mk.injEq] at h
      exact Or.inl ⟨h.2.symm, Or.inl ⟨Or.inl ha, h.1.symm⟩⟩
    · rw [if_neg ha] at h
      by_cases hb : m.current_state ∈ m.reject_states
      · rw [if_pos hb] at h
        simp only [Except.ok.injEq, Prod.mk.injEq] at h
        exact Or.inl ⟨h.2.symm, Or.inl ⟨Or.inr hb, h.1.symm⟩⟩
      · rw [if_neg hb] at h
        cases htr : TransitionFunction.get_transition m.transition_function m.current_state t.read with
        | none =>
          rw [htr] at h
          cases hrej : m.reject_states with
          | nil => rw [hrej] at h; exact absurd h (by simp)
          | cons r rs =>
            rw [hrej] at h
            simp only [Except.ok.injEq, Prod.mk.injEq] at h
            exact Or.inl ⟨h.2.symm, Or.inr ⟨ha, hrej ▸ hb, rfl, r, rs, rfl, h.1.symm⟩⟩
        | some tr =>
          obtain ⟨ns, ws, dir⟩ := tr
          rw [htr] at h
          simp only [Except.ok.injEq, Prod.mk.injEq] at h
          exact Or.inr ⟨h.2.symm, ns, ws, dir, rfl, h.1.symm⟩

lemma step_total (m : TuringMachine) (t : Tape) (ht : m.tape = some t)
    (hr : m.reject_states ≠ []) : ∃ p, TuringMachine.step m = Except.ok p := by
  simp only [TuringMachine.step, ht]
  by_cases ha : m.current_state ∈ m.accept_states
  · rw [if_pos ha]; exact ⟨(m, false), rfl⟩
  · rw [if_neg ha]
    by_cases hb : m.current_state ∈ m.reject_states
    · rw [if_pos hb]; exact ⟨(m, false), rfl⟩
    · rw [if_neg hb]
      cases htr : TransitionFunction.get_transition m.transition_function m.current_state t.read with
      | none =>
        cases hrej : m.reject_states with
        | nil => exact absurd hrej hr
        | cons r rs => exact ⟨_, rfl⟩
      | some tr =>
        obtain ⟨ns, ws, dir⟩ := tr
        exact ⟨_, rfl⟩

/-- C3: with a tape loaded, a `step` taken in an accepting or rejecting
`current_state` returns `false` at once and leaves the machine completely
unchanged (the result is `m` itself, so state, tape cells, head position,
step count and history are all untouched, and no error is raised).  The
machine `m` here carries an arbitrary transition function, so the conclusion
holds even when a transition is defined for the current (state, symbol) pair:
the transition function is never consulted. -/
theorem step_halting_state_frame (m : TuringMachine) (t : Tape)
    (ht : m.tape = some t)
    (h : m.current_state ∈ m.accept_states ∨ m.current_state ∈ m.reject_states) :
    TuringMachine.step m = Except.ok (m, false) := by
  simp only [TuringMachine.step, ht]
  rcases h with ha | hb
  · rw [if_pos ha]
  · by_cases ha : m.current_state ∈ m.accept_states
    · rw [if_pos ha]
    · rw [if_neg ha, if_pos hb]

/-- C2: with a tape loaded, a non-empty `reject_states` and no transition
defined for the current (state, symbol) pair, a `step` taken in a non-halting
state performs the implicit reject: it returns `Except.ok` (no exception),
returns `false`, and the resulting machine is `m` with only `current_state`
replaced by a member of `reject_states` — in particular `step_count`,
`history` and the tape are unchanged. -/
theorem step_undefined_transition_implicit_reject (m : TuringMachine) (t : Tape)
    (r : String) (rs : List String)
    (ht : m.tape = some t)
    (ha : m.current_state ∉ m.accept_states)
    (hb : m.current_state ∉ m.reject_states)
    (hn : TransitionFunction.get_transition m.transition_function m.current_state t.read = none)
    (hr : m.reject_states = r :: rs) :
    TuringMachine.step m = Except.ok ({ m with current_state := r }, false)
    ∧ r ∈ m.reject_states := by
  constructor
  · simp only [TuringMachine.step, ht]
    rw [if_neg ha, if_neg hb]
    simp only [hn, hr]
  · rw [hr]
    exact List.mem_cons_self r rs

/-- C8: calling `step` on a machine whose tape was never loaded raises the
invalid-state `ValueError` (modelled as `Except.error` with the source's
message), which propagates to the caller. -/
theorem step_without_loaded_tape_errors (m : TuringMachine) (h : m.tape = none) :
    TuringMachine.step m = Except.error "No hay entrada cargada" := by
  simp only [TuringMachine.step, h]

/-- C4 (amended): an undefined transition reached with an empty
`reject_states` fails with an explicit `IndexError` (from
`list(self.reject_states)[0]`) instead of silently looping.  This is the only
malformation the engine surfaces; see the counterexample theorem for the state
references that are silently tolerated. -/
theorem step_empty_reject_states_errors (m : TuringMachine) (t : Tape)
    (ht : m.tape = some t)
    (ha : m.current_state ∉ m.accept_states)
    (hb : m.current_state ∉ m.reject_states)
    (hn : TransitionFunction.get_transition m.transition_function m.current_state t.read = none)
    (hr : m.reject_states = []) :
    TuringMachine.step m = Except.error "list index out of range" := by
  simp only [TuringMachine.step, ht]
  rw [if_neg ha, if_neg hb]
  simp only [hn, hr]

lemma step_implicit_reject_head (m m2 : TuringMachine) (t : Tape) (c : Bool)
    (ht : m.tape = some t)
    (ha : m.current_state ∉ m.accept_states)
    (hb : m.current_state ∉ m.reject_states)
    (hn : TransitionFunction.get_transition m.transition_function m.current_state t.read = none)
    (h : TuringMachine.step m = Except.ok (m2, c)) :
    m2.current_state = m.reject_states.headI := by
  simp only [TuringMachine.step, ht] at h
  rw [if_neg ha, if_neg hb] at h
  simp only [hn] at h
  cases hrej : m.reject_states with
  | nil => rw [hrej] at h; simp at h
  | cons r rs =>
    rw [hrej] at h
    simp only [Except.ok.injEq, Prod.mk.injEq] at h
    rw [← h.1]
    rfl

/-- C5 (amended): on an implicit reject the engine picks
`list(self.reject_states)[0]`, the first member of `reject_states` in
iteration order.  The choice is therefore deterministic only relative to that
iteration order: two machines whose `reject_states` agree as ordered lists
pick the same state.  The companion counterexample theorem shows that two
machines whose `reject_states` agree as sets but differ in iteration order
pick different states, so the claim as stated (independence from incidental
set iteration order) fails. -/
theorem implicit_reject_choice_deterministic
    (m1 m2 n1 n2 : TuringMachine) (t1 t2 : Tape) (c1 c2 : Bool)
    (hr : m1.reject_states = m2.reject_states)
    (ht1 : m1.tape = some t1)
    (ha1 : m1.current_state ∉ m1.accept_states)
    (hb1 : m1.current_state ∉ m1.reject_states)
    (hn1 : TransitionFunction.get_transition m1.transition_function m1.current_state t1.read
        = none)
    (h1 : TuringMachine.step m1 = Except.ok (n1, c1))
    (ht2 : m2.tape = some t2)
    (ha2 : m2.current_state ∉ m2.accept_states)
    (hb2 : m2.current_state ∉ m2.reject_states)
    (hn2 : TransitionFunction.get_transition m2.transition_function m2.current_state t2.read
        = none)
    (h2 : TuringMachine.step m2 = Except.ok (n2, c2)) :
    n1.current_state = n2.current_state := by
  rw [step_implicit_reject_head m1 n1 t1 c1 ht1 ha1 hb1 hn1 h1,
    step_implicit_reject_head m2 n2 t2 c2 ht2 ha2 hb2 hn2 h2, hr]

lemma sameDescription_refl (m : TuringMachine) : sameDescription m m :=
  ⟨rfl, rfl, rfl, rfl, rfl, rfl, rfl, rfl⟩

lemma sameDescription_trans {a b c : TuringMachine}
    (h1 : sameDescription a b) (h2 : sameDescription b c) : sameDescription a c := by
  obtain ⟨a1, a2, a3, a4, a5, a6, a7, a8⟩ := h1
  obtain ⟨b1, b2, b3, b4, b5, b6, b7, b8⟩ := h2
  exact ⟨a1.trans b1, a2.trans b2, a3.trans b3, a4.trans b4, a5.trans b5,
    a6.trans b6, a7.trans b7, a8.trans b8⟩

lemma step_preserves (m m2 : TuringMachine) (c : Bool)
    (h : TuringMachine.step m = Except.ok (m2, c)) :
    sameDescription m2 m ∧ (∃ t2, m2.tape = some t2)
    ∧ (c = true → m2.step_count = m.step_count + 1) := by
  obtain ⟨t, htape, hcase⟩ := step_characterization m m2 c h
  rcases hcase with ⟨hc, hsub⟩ | ⟨hc, ns, ws, dir, htr, hm2⟩
  · rcases hsub with ⟨_, hm2⟩ | ⟨_, _, _, r, rs, hrej, hm2⟩ <;> subst hm2
    · exact ⟨sameDescription_refl _, ⟨t, htape⟩, fun hcc => by simp [hcc] at hc⟩
    · exact ⟨⟨rfl, rfl, rfl, rfl, rfl, rfl, rfl, rfl⟩, ⟨t, htape⟩,
        fun hcc => by simp [hcc] at hc⟩
  · subst hm2
    obtain ⟨hs, hi, hta, htf, hin, hacc, hrej, hbl, hcur, htp, hsc⟩ :=
      record_configuration_fields
        { m with
          tape := some ((t.write ws).move dir)
          current_state := ns
          step_count := m.step_count + 1 }
    exact ⟨⟨hs, hi, hta, htf, hin, hacc, hrej, hbl⟩,
      ⟨(t.write ws).move dir, htp⟩, fun _ => hsc⟩

lemma load_input_fields (m : TuringMachine) (x : String) :
    (TuringMachine.load_input m x).tape = some (Tape.init x m.blank_symbol)
    ∧ (TuringMachine.load_input m x).reject_states = m.reject_states
    ∧ (TuringMachine.load_input m x).accept_states = m.accept_states
    ∧ (TuringMachine.load_input m x).step_count = 0
    ∧ (TuringMachine.load_input m x).history.length = 1
    ∧ (TuringMachine.load_input m x).current_state = m.initial_state
    ∧ sameDescription (TuringMachine.load_input m x) m := by
  unfold TuringMachine.load_input TuringMachine.record_configuration
  simp [sameDescription]

lemma load_input_eq_of_sameDescription (m1 m2 : TuringMachine) (x : String)
    (h : sameDescription m1 m2) :
    TuringMachine.load_input m1 x = TuringMachine.load_input m2 x := by
  obtain ⟨hs, hi, hta, htf, hin, hacc, hrej, hbl⟩ := h
  unfold TuringMachine.load_input TuringMachine.record_configuration
  simp only [hs, hi, hta, htf, hin, hacc, hrej, hbl]

lemma runLoop_ok (max_steps : Nat) :
    ∀ (fuel : Nat) (m : TuringMachine), (∃ t, m.tape = some t) → m.reject_states ≠ [] →
      ∃ mf, TuringMachine.runLoop max_steps fuel m = Except.ok mf := by
  intro fuel
  induction fuel with
  | zero => intro m _ _; exact ⟨m, rfl⟩
  | succ fuel ih =>
    intro m htape hrej
    obtain ⟨t, ht⟩ := htape
    simp only [TuringMachine.runLoop]
    by_cases hlt : m.step_count < max_steps
    · rw [if_pos hlt]
      obtain ⟨⟨m2, c⟩, hstep⟩ := step_total m t ht hrej
      rw [hstep]
      cases c with
      | false => exact ⟨m2, rfl⟩
      | true =>
        obtain ⟨⟨_, _, _, _, _, _, hrej2, _⟩, htape2, _⟩ := step_preserves m m2 true hstep
        obtain ⟨mf, hmf⟩ := ih m2 htape2 (by rw [hrej2]; exact hrej)
        exact ⟨mf, by simpa using hmf⟩
    · rw [if_neg hlt]
      exact ⟨m, rfl⟩

lemma runLoop_preserves (max_steps : Nat) :
    ∀ (fuel : Nat) (m mf : TuringMachine),
      TuringMachine.runLoop max_steps fuel m = Except.ok mf → sameDescription mf m := by
  intro fuel
  induction fuel with
  | zero =>
    intro m mf h
    simp only [TuringMachine.runLoop, Except.ok.injEq] at h
    subst h
    exact sameDescription_refl m
  | succ fuel ih =>
    intro m mf h
    simp only [TuringMachine.runLoop] at h
    by_cases hlt : m.step_count < max_steps
    · rw [if_pos hlt] at h
      cases hstep : TuringMachine.step m with
      | error e =>
        rw [hstep] at h
        exact absurd h (by simp)
      | ok p =>
        obtain ⟨m2, c⟩ := p
        rw [hstep] at h
        obtain ⟨hdesc, _, _⟩ := step_preserves m m2 c hstep
        cases c with
        | true =>
          simp only [if_pos] at h
          exact sameDescription_trans (ih m2 mf h) hdesc
        | false =>
          simp at h
          subst h
          exact hdesc
    · rw [if_neg hlt] at h
      simp only [Except.ok.injEq] at h
      subst h
      exact sameDescription_refl m

lemma runLoopCalls_le (max_steps : Nat) :
    ∀ (fuel : Nat) (m : TuringMachine),
      TuringMachine.runLoopCalls max_steps fuel m ≤ max_steps - m.step_count := by
  intro fuel
  induction fuel with
  | zero => intro m; simp [TuringMachine.runLoopCalls]
  | succ fuel ih =>
    intro m
    simp only [TuringMachine.runLoopCalls]
    by_cases hlt : m.step_count < max_steps
    · rw [if_pos hlt]
      cases hstep : TuringMachine.step m with
      | error e =>
        show 1 ≤ max_steps - m.step_count
        omega
      | ok p =>
        obtain ⟨m2, c⟩ := p
        cases c with
        | false =>
          show 1 ≤ max_steps - m.step_count
          omega
        | true =>
          show 1 + TuringMachine.runLoopCalls max_steps fuel m2 ≤ max_steps - m.step_count
          obtain ⟨_, _, hsc⟩ := step_preserves m m2 true hstep
          have h2 := ih m2
          rw [hsc rfl] at h2
          omega
    · rw [if_neg hlt]
      omega

lemma run_preserves_description (m mf : TuringMachine) (x : String) (ms : Nat)
    (acc : Bool) (lab : String)
    (h : TuringMachine.run m x ms = Except.ok (mf, acc, lab)) : sameDescription mf m := by
  simp only [TuringMachine.run] at h
  cases hloop : TuringMachine.runLoop ms ms (TuringMachine.load_input m x) with
  | error e =>
    simp only [hloop] at h
    exact absurd h (by simp)
  | ok mf2 =>
    simp only [hloop] at h
    have hdesc : sameDescription mf2 m :=
      sameDescription_trans (runLoop_preserves ms ms (TuringMachine.load_input m x) mf2 hloop)
        ((load_input_fields m x).2.2.2.2.2.2)
    have hmf : mf2 = mf := by
      by_cases hacc : mf2.current_state ∈ mf2.accept_states
      · rw [if_pos hacc] at h
        simp only [Except.ok.injEq, Prod.mk.injEq] at h
        exact h.1
      · rw [if_neg hacc] at h
        by_cases hrej : mf2.current_state ∈ mf2.reject_states
        · rw [if_pos hrej] at h
          simp only [Except.ok.injEq, Prod.mk.injEq] at h
          exact h.1
        · rw [if_neg hrej] at h
          simp only [Except.ok.injEq, Prod.mk.injEq] at h
          exact h.1
    rw [← hmf]
    exact hdesc

/-- C7: if a `run` on machine object `m` produced the mutated machine `m1`
with outcome `(acc, lab)`, then running the same input with the same
`max_steps` again on that same (now mutated) object yields exactly the same
result — same accepted flag, same outcome label, and even the same final
machine, hence in particular the same history length.  This holds because
`load_input` re-initializes the tape, `current_state`, `step_count` and
`history` from the immutable description alone, which `run` never changes. -/
theorem run_idempotent (m m1 : TuringMachine) (x : String) (ms : Nat)
    (acc : Bool) (lab : String)
    (h : TuringMachine.run m x ms = Except.ok (m1, acc, lab)) :
    TuringMachine.run m1 x ms = Except.ok (m1, acc, lab) := by
  have hdesc : sameDescription m1 m := run_preserves_description m m1 x ms acc lab h
  have hload := load_input_eq_of_sameDescription m1 m x hdesc
  simp only [TuringMachine.run] at h ⊢
  rw [hload]
  exact h

/-- C1 (amended): for every machine description whose `reject_states` is
non-empty, `run` performs at most `max_steps` calls to `step`
(`runLoopCalls` counts the `step` invocations of the embedded `while` loop)
and returns exactly one of the three outcomes, decided on the final
`current_state` in the source's precedence order — accepted, else rejected,
else the step-limit label, which is distinct from the rejected label.  The
non-empty hypothesis is forced by the counterexample theorem: with an empty
`reject_states` an undefined transition makes `run` raise `IndexError`
instead of returning an outcome. -/
theorem run_returns_one_of_three_outcomes (m : TuringMachine) (x : String) (ms : Nat)
    (hr : m.reject_states ≠ []) :
    TuringMachine.runLoopCalls ms ms (TuringMachine.load_input m x) ≤ ms
    ∧ ∃ mf acc lab, TuringMachine.run m x ms = Except.ok (mf, acc, lab)
      ∧ (mf.current_state ∈ mf.accept_states → acc = true ∧ lab = "ACEPTADA")
      ∧ (mf.current_state ∉ mf.accept_states → mf.current_state ∈ mf.reject_states →
          acc = false ∧ lab = "RECHAZADA")
      ∧ (mf.current_state ∉ mf.accept_states → mf.current_state ∉ mf.reject_states →
          acc = false ∧ lab = "BUCLE DETECTADO (límite de pasos alcanzado)")
      ∧ "RECHAZADA" ≠ "BUCLE DETECTADO (límite de pasos alcanzado)" := by
  obtain ⟨htape, hrej, hacc, hsc, hlen, hcur, hdesc⟩ := load_input_fields m x
  constructor
  · have h1 := runLoopCalls_le ms ms (TuringMachine.load_input m x)
    rw [hsc] at h1
    omega
  · obtain ⟨mf, hloop⟩ := runLoop_ok ms ms (TuringMachine.load_input m x)
      ⟨_, htape⟩ (by rw [hrej]; exact hr)
    simp only [TuringMachine.run, hloop]
    by_cases ha : mf.current_state ∈ mf.accept_states
    · rw [if_pos ha]
      exact ⟨mf, true, "ACEPTADA", rfl, fun _ => ⟨rfl, rfl⟩,
        fun hna _ => absurd ha hna, fun hna _ => absurd ha hna, by decide⟩
    · rw [if_neg ha]
      by_cases hb : mf.current_state ∈ mf.reject_states
      · rw [if_pos hb]
        exact ⟨mf, false, "RECHAZADA", rfl, fun hc => absurd hc ha,
          fun _ _ => ⟨rfl, rfl⟩, fun _ hnr => absurd hb hnr, by decide⟩
      · rw [if_neg hb]
        exact ⟨mf, false, "BUCLE DETECTADO (límite de pasos alcanzado)", rfl,
          fun hc => absurd hc ha, fun _ hc => absurd hc hb,
          fun _ _ => ⟨rfl, rfl⟩, by decide⟩

/-- C10: `load_input` records exactly one snapshot of the initial
configuration, establishing `history.length = step_count + 1`; every
successful `step` (one that returns `true`) appends exactly one snapshot while
incrementing `step_count`, preserving the invariant; and a `step` that
returns `false` — a halting-state call or an implicit reject — appends
nothing and leaves both `history` and `step_count` unchanged, so in
particular the post-implicit-reject configuration is never recorded. -/
theorem history_length_invariant (m m2 : TuringMachine) (x : String) (c : Bool)
    (hinv : m.history.length = m.step_count + 1)
    (hstep : TuringMachine.step m = Except.ok (m2, c)) :
    (TuringMachine.load_input m x).history.length
        = (TuringMachine.load_input m x).step_count + 1
    ∧ m2.history.length = m2.step_count + 1
    ∧ (c = true → m2.history.length = m.history.length + 1
        ∧ m2.step_count = m.step_count + 1)
    ∧ (c = false → m2.history = m.history ∧ m2.step_count = m.step_count) := by
  obtain ⟨htape0, hrej0, hacc0, hsc0, hlen0, hcur0, hdesc0⟩ := load_input_fields m x
  have hfirst : (TuringMachine.load_input m x).history.length
      = (TuringMachine.load_input m x).step_count + 1 := by
    rw [hsc0, hlen0]
  obtain ⟨t, htape, hcase⟩ := step_characterization m m2 c hstep
  rcases hcase with ⟨hc, hsub⟩ | ⟨hc, ns, ws, dir, htr, hm2⟩
  · subst hc
    rcases hsub with ⟨_, hm2⟩ | ⟨_, _, _, r, rs, hrej, hm2⟩ <;> subst hm2
    · exact ⟨hfirst, hinv, fun hcc => by simp at hcc, fun _ => ⟨rfl, rfl⟩⟩
    · exact ⟨hfirst, hinv, fun hcc => by simp at hcc, fun _ => ⟨rfl, rfl⟩⟩
  · subst hc
    subst hm2
    have hh := record_configuration_history_some
      { m with
        tape := some ((t.write ws).move dir)
        current_state := ns
        step_count := m.step_count + 1 } ((t.write ws).move dir) rfl
    obtain ⟨_, _, _, _, _, _, _, _, _, _, hsc⟩ := record_configuration_fields
      { m with
        tape := some ((t.write ws).move dir)
        current_state := ns
        step_count := m.step_count + 1 }
    have hlen : (TuringMachine.record_configuration
        { m with
          tape := some ((t.write ws).move dir)
          current_state := ns
          step_count := m.step_count + 1 }).history.length = m.history.length + 1 := by
      rw [hh]
      simp
    refine ⟨hfirst, ?_, fun _ => ⟨hlen, hsc⟩, fun hcc => by simp at hcc⟩
    rw [hlen, hsc, hinv]

/-- C1 counterexample: quantified over *every* machine description, the claim
fails — for `tmNoReject` (empty `reject_states`, no transitions) `run` on the
empty input with `max_steps = 1` raises the `IndexError` from
`list(self.reject_states)[0]` and returns none of the three outcomes. -/
theorem run_with_empty_reject_states_errors :
    TuringMachine.run tmNoReject "" 1 = Except.error "list index out of range" := by
  rfl

/-- Witness for C1 (amended) at the single-symbol acceptor on input "0". -/
theorem run_returns_one_of_three_outcomes_witness :
    TuringMachine.runLoopCalls 5 5 (TuringMachine.load_input tmSingle "0") ≤ 5
    ∧ ∃ mf acc lab, TuringMachine.run tmSingle "0" 5 = Except.ok (mf, acc, lab)
      ∧ (mf.current_state ∈ mf.accept_states → acc = true ∧ lab = "ACEPTADA")
      ∧ (mf.current_state ∉ mf.accept_states → mf.current_state ∈ mf.reject_states →
          acc = false ∧ lab = "RECHAZADA")
      ∧ (mf.current_state ∉ mf.accept_states → mf.current_state ∉ mf.reject_states →
          acc = false ∧ lab = "BUCLE DETECTADO (límite de pasos alcanzado)")
      ∧ "RECHAZADA" ≠ "BUCLE DETECTADO (límite de pasos alcanzado)" :=
  run_returns_one_of_three_outcomes tmSingle "0" 5 (by decide)

/-- Witness for C2: the spec's scenario — `tmSingle` on input "1" has no
transition for `(q0, '1')` and implicitly rejects into `q_reject`. -/
theorem step_undefined_transition_implicit_reject_witness :
    TuringMachine.step tmSingleLoaded1
        = Except.ok ({ tmSingleLoaded1 with current_state := "q_reject" }, false)
    ∧ "q_reject" ∈ tmSingleLoaded1.reject_states :=
  step_undefined_transition_implicit_reject tmSingleLoaded1 (Tape.init "1" '_')
    "q_reject" [] rfl (by decide) (by decide) (by decide) rfl

/-- Witness for C3: `tmHalting` starts in its accept state and has a
transition defined for the current (state, symbol) pair, yet `step` returns
the machine unchanged with `false`. -/
theorem step_halting_state_frame_witness :
    TuringMachine.step tmHaltingLoaded = Except.ok (tmHaltingLoaded, false) :=
  step_halting_state_frame tmHaltingLoaded (Tape.init "" '_') rfl (Or.inl (by decide))

/-- C4 counterexample: `tmBadStates` references `initial_state` "q0" and
reject state "qr" outside its (empty) `states`, yet it is constructed without
complaint and `run` completes with an ordinary rejected outcome — the
malformation is silently tolerated, never surfaced. -/
theorem malformed_state_references_silently_tolerated :
    tmBadStates.initial_state = "q0"
    ∧ ¬ ("q0" ∈ tmBadStates.states)
    ∧ "qr" ∈ tmBadStates.reject_states
    ∧ ¬ ("qr" ∈ tmBadStates.states)
    ∧ (TuringMachine.run tmBadStates "" 5).toOption.map (fun p => p.2)
        = some (false, "RECHAZADA") :=
  ⟨rfl, by decide, by decide, by decide, rfl⟩

/-- Witness for C4 (amended): `tmNoReject` meets an undefined transition with
an empty `reject_states` and `step` raises the explicit `IndexError`. -/
theorem step_empty_reject_states_errors_witness :
    TuringMachine.step tmNoRejectLoaded = Except.error "list index out of range" :=
  step_empty_reject_states_errors tmNoRejectLoaded (Tape.init "" '_')
    rfl (by decide) (by decide) (by decide) rfl

/-- C5 counterexample: `tmOrder1` and `tmOrder2` have identical descriptions
up to the iteration order of the *same* two-element `reject_states` set, yet
the implicit reject lands in "r1" for one and "r2" for the other — the chosen
member does depend on incidental set iteration order. -/
theorem implicit_reject_choice_depends_on_iteration_order :
    tmOrder1.reject_states.Perm tmOrder2.reject_states
    ∧ tmOrder1.states = tmOrder2.states
    ∧ tmOrder1.input_alphabet = tmOrder2.input_alphabet
    ∧ tmOrder1.tape_alphabet = tmOrder2.tape_alphabet
    ∧ tmOrder1.transition_function = tmOrder2.transition_function
    ∧ tmOrder1.initial_state = tmOrder2.initial_state
    ∧ tmOrder1.accept_states = tmOrder2.accept_states
    ∧ tmOrder1.blank_symbol = tmOrder2.blank_symbol
    ∧ (TuringMachine.run tmOrder1 "" 5).toOption.map (fun p => p.1.current_state) = some "r1"
    ∧ (TuringMachine.run tmOrder2 "" 5).toOption.map (fun p => p.1.current_state) = some "r2" :=
  ⟨by decide, rfl, rfl, rfl, rfl, rfl, rfl, rfl, rfl, rfl⟩

/-- Witness for C5 (amended): two machine objects with the same
`reject_states` iteration order, both in the implicit-reject configuration,
choose the same reject state. -/
theorem implicit_reject_choice_deterministic_witness :
    (stepMachine tmSingleLoaded1).current_state = (stepMachine tmSingleB1).current_state :=
  implicit_reject_choice_deterministic tmSingleLoaded1 tmSingleB1
    (stepMachine tmSingleLoaded1) (stepMachine tmSingleB1)
    (Tape.init "1" '_') (Tape.init "1" '_') false false
    rfl rfl (by decide) (by decide) (by decide) rfl
    rfl (by decide) (by decide) (by decide) rfl

/-- Witness for C7: a first run of `tmSingle` on "0" accepts and leaves the
mutated object `tmSingleAfterRun`; running it again yields the identical
result (and the identical machine, hence identical history length). -/
theorem run_idempotent_witness :
    TuringMachine.run tmSingleAfterRun "0" 5
      = Except.ok (tmSingleAfterRun, true, "ACEPTADA") :=
  run_idempotent tmSingle tmSingleAfterRun "0" 5 true "ACEPTADA" rfl

/-- Witness for C8: the freshly constructed `tmSingle` has no tape loaded and
`step` raises the invalid-state error. -/
theorem step_without_loaded_tape_errors_witness :
    TuringMachine.step tmSingle = Except.error "No hay entrada cargada" :=
  step_without_loaded_tape_errors tmSingle rfl

/-- Witness for C10 at `tmHaltingLoaded`, whose next step halts (returns
`false`) and changes nothing. -/
theorem history_length_invariant_witness :
    (TuringMachine.load_input tmHaltingLoaded "").history.length
        = (TuringMachine.load_input tmHaltingLoaded "").step_count + 1
    ∧ tmHaltingLoaded.history.length = tmHaltingLoaded.step_count + 1
    ∧ (false = true → tmHaltingLoaded.history.length = tmHaltingLoaded.history.length + 1
        ∧ tmHaltingLoaded.step_count = tmHaltingLoaded.step_count + 1)
    ∧ (false = false → tmHaltingLoaded.history = tmHaltingLoaded.history
        ∧ tmHaltingLoaded.step_count = tmHaltingLoaded.step_count) :=
  history_length_invariant tmHaltingLoaded tmHaltingLoaded "" false rfl rfl
